import Mathlib

/-!
Verification of the eFFORT `Hybrid` model (`eFFORT/hybrid/hybrid_model.py`).

The module under study has three operations:
  * `Hybrid.__init__` : loads three bin-edge lists (`BINS_MX`, `BINS_ELB`,
    `BINS_Q2`) from a json config and derives `range_* = (edges[0], edges[1])`;
  * `Hybrid.generate_hybrid_weights` : builds two weighted 3D histograms
    (`numpy.histogramdd` with explicit bin edges) over the columns
    `(El_B, q2, mX)` of the exclusive and inclusive event tables, forms
    `(H_incl - H_exc) / H_incl` elementwise, replaces NaN entries by 1 and
    negative entries by 0;
  * `Hybrid.calculate_weight` : pads the weight table with one zero slice on
    each side of each axis, digitizes each event coordinate against the
    configured edges (`numpy.digitize`) and reads the padded table at the
    digitized indices.

We embed the numeric core over exact rationals.  The only place where IEEE
floating-point special values matter is the elementwise division: histogram
contents are finite sums of finite weights, so `H_incl - H_exc` and `H_incl`
are finite, and the division produces NaN exactly for 0/0 and signed
infinities for x/0 with x ≠ 0.  We capture this with the four-constructor
type `FVal` and an exact division `fdiv`; rounding of nonzero finite results
is immaterial to the properties studied here, which depend only on the sign,
zero and NaN structure of the intermediate values.
-/

/-- Value of a floating-point computation: a finite (exact rational) value,
positive or negative infinity, or NaN.  Histogram contents are always
finite; infinities and NaN appear only through division by zero. -/
inductive FVal where
  | fin (q : ℚ)
  | pinf
  | ninf
  | nan
deriving DecidableEq

/-- IEEE division of two finite values (numpy semantics of
`(H_incl - H_exc) / H_incl` on finite operands): ordinary division when the
denominator is nonzero, NaN for `0/0`, and a signed infinity for `x/0` with
`x ≠ 0` (the zero produced by an empty histogram bin is `+0.0`). -/
def fdiv (a b : ℚ) : FVal :=
  if b ≠ 0 then .fin (a / b)
  else if a = 0 then .nan
  else if 0 < a then .pinf
  else .ninf

/-- `numpy.isnan` on an `FVal`. -/
def FVal.isnan : FVal → Bool
  | .nan => true
  | _ => false

/-- The elementwise comparison `w < 0` (IEEE: `NaN < 0` is false,
`-inf < 0` is true, `+inf < 0` is false). -/
def FVal.ltZero : FVal → Bool
  | .fin q => decide (q < 0)
  | .ninf => true
  | _ => false

/-- The post-processing applied to the raw ratio in
`generate_hybrid_weights`: first `numpy.where(isnan(w), 1, w)`, then
`numpy.where(w < 0, 0, w)`. -/
def postprocess (w : FVal) : FVal :=
  let w1 := if w.isnan then FVal.fin 1 else w
  if w1.ltZero then FVal.fin 0 else w1

/-- One row of an event table (pandas DataFrame): the three kinematic
coordinates `El_B`, `q2`, `mX` and the per-event weight column
`__weight__`. -/
structure Event where
  El_B : ℚ
  q2 : ℚ
  mX : ℚ
  weight : ℚ
deriving DecidableEq

/-- The binning configuration held by a `Hybrid` instance: the three
bin-edge lists read from the json config. -/
structure HybridConfig where
  bins_mX : List ℚ
  bins_El_B : List ℚ
  bins_q2 : List ℚ
deriving DecidableEq

/-- `self.range_mX = (self.bins_mX[0], self.bins_mX[1])`.  (The
`IndexError` Python raises here for a list of fewer than two edges is
modelled in `hybridInit`, so a loaded configuration always has both
entries; `getD` supplies a junk 0 only for configurations constructed
directly with shorter lists, and the value is never consumed by the
histogramming, see `resolveEdges`.) -/
def HybridConfig.range_mX (c : HybridConfig) : ℚ × ℚ :=
  (c.bins_mX.getD 0 0, c.bins_mX.getD 1 0)

/-- `self.range_El_B = (self.bins_El_B[0], self.bins_El_B[1])`. -/
def HybridConfig.range_El_B (c : HybridConfig) : ℚ × ℚ :=
  (c.bins_El_B.getD 0 0, c.bins_El_B.getD 1 0)

/-- `self.range_q2 = (self.bins_q2[0], self.bins_q2[1])`. -/
def HybridConfig.range_q2 (c : HybridConfig) : ℚ × ℚ :=
  (c.bins_q2.getD 0 0, c.bins_q2.getD 1 0)

/-- The default binning hard-coded in `hybrid_binning.json` and documented in
the `Hybrid.__init__` docstring. -/
def defaultConfig : HybridConfig :=
  { bins_mX := [0.0, 1.4, 1.6, 1.8, 2.0, 2.5, 3.0, 3.5]
    bins_El_B := [0.0, 0.5, 1.0, 1.25, 1.5, 1.75, 2.0, 2.25, 3.0]
    bins_q2 := [0.0, 2.5, 5.0, 7.5, 10.0, 12.5, 15.0, 20.0, 25.0] }

/-- A minimal legal binning configuration (three strictly increasing edge
lists), used for concrete instantiations. -/
def smallConfig : HybridConfig :=
  { bins_mX := [0, 1, 2], bins_El_B := [0, 1, 2], bins_q2 := [0, 1, 2] }

/-- The per-dimension `bins` argument of `numpy.histogramdd`: either a bin
count or an explicit monotonic sequence of bin edges.  The source always
passes explicit edge lists. -/
inductive BinSpec where
  | count (n : Nat)
  | explicitEdges (es : List ℚ)

/-- `numpy.linspace lo hi` with `n + 1` points (the edges of `n` equal
bins). -/
def linspace (lo hi : ℚ) (n : Nat) : List ℚ :=
  (List.range (n + 1)).map (fun i => lo + (hi - lo) * i / n)

/-- How `numpy.histogramdd` resolves the edges of one dimension: when the
`bins` entry is an explicit edge sequence the `range` entry is ignored and
the supplied edges are used verbatim; only when `bins` is an integer count
is `range` (or, failing that, the data minimum/maximum) consulted to place
equally spaced edges. -/
def resolveEdges (spec : BinSpec) (rng : Option (ℚ × ℚ)) (sample : List ℚ) : List ℚ :=
  match spec with
  | .explicitEdges es => es
  | .count n =>
    match rng with
    | some (lo, hi) => linspace lo hi n
    | none => linspace ((sample.min?).getD 0) ((sample.max?).getD 0) n

/-- `numpy.digitize x edges` (with `right=False`) for monotonically
increasing `edges`: the number of edges that are `≤ x`, i.e. the index `i`
with `edges[i-1] ≤ x < edges[i]`; `0` for `x` below the first edge and
`edges.length` for `x` at or above the last edge. -/
def digitize (edges : List ℚ) (x : ℚ) : Nat :=
  edges.countP (fun e => decide (e ≤ x))

/-- The bin `numpy.histogramdd` assigns a coordinate to, for monotonically
increasing `edges`: `none` for a coordinate outside `[first, last]`
(excluded from the histogram), otherwise the 0-based bin index, every bin
being closed below and open above except the last bin which is closed on
both ends (a coordinate equal to the last edge is counted in the last
bin). -/
def histBin (edges : List ℚ) (x : ℚ) : Option Nat :=
  if edges.length < 2 then none
  else
    match edges.head?, edges.getLast? with
    | some e0, some eLast =>
      if x < e0 ∨ eLast < x then none
      else if x = eLast then some (edges.length - 2)
      else some (digitize edges x - 1)
    | _, _ => none

/-- The 3D bin of `numpy.histogramdd` for one event over the resolved edges
in the column order `(El_B, q2, mX)` used by the source; `none` when the
event is out of range in any dimension. -/
def eventBin (eEl eQ2 eMX : List ℚ) (ev : Event) : Option (Nat × Nat × Nat) :=
  match histBin eEl ev.El_B, histBin eQ2 ev.q2, histBin eMX ev.mX with
  | some i, some j, some k => some (i, j, k)
  | _, _, _ => none

/-- One bin content of the weighted 3D histogram
`numpy.histogramdd(df[['El_B','q2','mX']].values, bins=..., range=...,
normed=False, weights=df['__weight__'])`: the sum of the `__weight__`
column over the events assigned to that bin.  The per-dimension edges are
resolved from the `bins`/`range` arguments by `resolveEdges`. -/
def histogramddR (bEl bQ2 bMX : BinSpec) (rEl rQ2 rMX : ℚ × ℚ)
    (events : List Event) (idx : Nat × Nat × Nat) : ℚ :=
  let eEl := resolveEdges bEl (some rEl) (events.map Event.El_B)
  let eQ2 := resolveEdges bQ2 (some rQ2) (events.map Event.q2)
  let eMX := resolveEdges bMX (some rMX) (events.map Event.mX)
  ((events.filter (fun ev => decide (eventBin eEl eQ2 eMX ev = some idx))).map
    Event.weight).sum

/-- The histogram built inside `generate_hybrid_weights` for one event
table: explicit edges `[bins_El_B, bins_q2, bins_mX]` and
`range=[range_El_B, range_q2, range_mX]`, exactly as in the source. -/
def hybridHist (cfg : HybridConfig) (events : List Event) (idx : Nat × Nat × Nat) : ℚ :=
  histogramddR (.explicitEdges cfg.bins_El_B) (.explicitEdges cfg.bins_q2)
    (.explicitEdges cfg.bins_mX) cfg.range_El_B cfg.range_q2 cfg.range_mX events idx

/-- `Hybrid.generate_hybrid_weights`, one bin of the returned table:
`hybrid_weights = (H_incl - H_exc) / H_incl`, then NaN entries replaced by
1, then negative entries replaced by 0. -/
def generate_hybrid_weights (cfg : HybridConfig) (inclusive exclusive : List Event)
    (idx : Nat × Nat × Nat) : FVal :=
  postprocess (fdiv (hybridHist cfg inclusive idx - hybridHist cfg exclusive idx)
    (hybridHist cfg inclusive idx))

/-- `Hybrid.calculate_weight` for a single event: the weight table of shape
`(n1, n2, n3)` is padded with one zero slice on each side of each axis
(`numpy.pad(hybrid_weights, [1, 1], constant_values=0)`), each coordinate
is digitized against the configured edges, and the padded table is read at
the digitized indices.  `none` models the `IndexError` numpy raises when a
digitized index falls outside the padded table. -/
def calcOne (cfg : HybridConfig) (n1 n2 n3 : Nat) (t : Nat → Nat → Nat → FVal)
    (x : ℚ × ℚ × ℚ) : Option FVal :=
  if digitize cfg.bins_El_B x.1 ≤ n1 + 1 ∧ digitize cfg.bins_q2 x.2.1 ≤ n2 + 1
      ∧ digitize cfg.bins_mX x.2.2 ≤ n3 + 1 then
    some (if 1 ≤ digitize cfg.bins_El_B x.1 ∧ digitize cfg.bins_El_B x.1 ≤ n1
        ∧ 1 ≤ digitize cfg.bins_q2 x.2.1 ∧ digitize cfg.bins_q2 x.2.1 ≤ n2
        ∧ 1 ≤ digitize cfg.bins_mX x.2.2 ∧ digitize cfg.bins_mX x.2.2 ≤ n3 then
      t (digitize cfg.bins_El_B x.1 - 1) (digitize cfg.bins_q2 x.2.1 - 1)
        (digitize cfg.bins_mX x.2.2 - 1)
    else FVal.fin 0)
  else none

/-- The shape of a weight table matching a configuration: one bin fewer than
edges in each dimension, in the axis order `(El_B, q2, mX)` of the source
histograms. -/
def HybridConfig.shape (cfg : HybridConfig) : Nat × Nat × Nat :=
  (cfg.bins_El_B.length - 1, cfg.bins_q2.length - 1, cfg.bins_mX.length - 1)

/-- `Hybrid.calculate_weight` on an array of event coordinates `(El_B, q2,
mX)`: elementwise lookup, one output per input row in input order. -/
def calculate_weight (cfg : HybridConfig) (t : Nat → Nat → Nat → FVal)
    (xs : List (ℚ × ℚ × ℚ)) : List (Option FVal) :=
  xs.map (calcOne cfg cfg.shape.1 cfg.shape.2.1 cfg.shape.2.2 t)

/-- The errors `Hybrid.__init__` can raise after `json.load`: a Python
`KeyError` on the first absent required key, or a Python `IndexError`
("list index out of range", no key name attached) from the eager
`range_* = (bins[0], bins[1])` derivation when a supplied edge list has
fewer than two elements. -/
inductive LoadError where
  | keyError (key : String)
  | indexError
deriving DecidableEq

/-- `Hybrid.__init__` after `json.load`: reads `config['BINS_MX']`,
`config['BINS_ELB']`, `config['BINS_Q2']` in this order (a Python dict
lookup raising `KeyError` on an absent key), stores the three lists
verbatim, then derives `range_mX = (bins_mX[0], bins_mX[1])`,
`range_El_B = (bins_El_B[0], bins_El_B[1])` and
`range_q2 = (bins_q2[0], bins_q2[1])` in this order, Python list indexing
raising `IndexError` on the first list with fewer than two elements.  No
other validation of the edge sequences is performed. -/
def hybridInit (config : String → Option (List ℚ)) : Except LoadError HybridConfig :=
  match config "BINS_MX" with
  | none => .error (.keyError "BINS_MX")
  | some mx =>
    match config "BINS_ELB" with
    | none => .error (.keyError "BINS_ELB")
    | some elb =>
      match config "BINS_Q2" with
      | none => .error (.keyError "BINS_Q2")
      | some q2 =>
        if mx.length < 2 then .error .indexError
        else if elb.length < 2 then .error .indexError
        else if q2.length < 2 then .error .indexError
        else .ok { bins_mX := mx, bins_El_B := elb, bins_q2 := q2 }

/-- A coordinate is out of range for one dimension: strictly below the
first bin edge, or at/above the last bin edge. -/
def outOfRange1 (edges : List ℚ) (c : ℚ) : Prop :=
  (∃ e0, edges.head? = some e0 ∧ c < e0) ∨ (∃ eL, edges.getLast? = some eL ∧ eL ≤ c)

/-- An event coordinate triple `(El_B, q2, mX)` is out of range when any of
its three coordinates is out of range for the corresponding dimension. -/
def outOfRange (cfg : HybridConfig) (x : ℚ × ℚ × ℚ) : Prop :=
  outOfRange1 cfg.bins_El_B x.1 ∨ outOfRange1 cfg.bins_q2 x.2.1 ∨ outOfRange1 cfg.bins_mX x.2.2

/-! ### Helper lemmas about `digitize`, `histBin` and `postprocess` -/

theorem digitize_le_length (edges : List ℚ) (x : ℚ) :
    digitize edges x ≤ edges.length :=
  List.countP_le_length _

theorem le_getLast_of_sorted (edges : List ℚ) (hs : List.Sorted (· < ·) edges)
    (eL : ℚ) (hL : edges.getLast? = some eL) : ∀ e ∈ edges, e ≤ eL := by
  induction edges with
  | nil => simp
  | cons a l ih =>
    intro e he
    cases l with
    | nil =>
      simp only [List.getLast?_singleton, Option.some.injEq] at hL
      simp only [List.mem_singleton] at he
      simp [he, hL]
    | cons b m =>
      rw [List.getLast?_cons_cons] at hL
      rcases List.mem_cons.mp he with rfl | hm
      · exact le_of_lt ((List.sorted_cons.mp hs).1 eL
          (List.mem_of_mem_getLast? hL))
      · exact ih (List.sorted_cons.mp hs).2 hL e hm

theorem digitize_eq_zero (edges : List ℚ) (hs : List.Sorted (· < ·) edges)
    (e0 : ℚ) (h0 : edges.head? = some e0) (x : ℚ) (hx : x < e0) :
    digitize edges x = 0 := by
  apply List.countP_eq_zero.mpr
  intro e he
  simp only [decide_eq_true_eq, not_le]
  cases edges with
  | nil => simp at he
  | cons a l =>
    simp only [List.head?_cons, Option.some.injEq] at h0
    subst h0
    rcases List.mem_cons.mp he with rfl | hm
    · exact hx
    · exact lt_trans hx ((List.sorted_cons.mp hs).1 e hm)

theorem digitize_eq_length (edges : List ℚ) (hs : List.Sorted (· < ·) edges)
    (eL : ℚ) (hL : edges.getLast? = some eL) (x : ℚ) (hx : eL ≤ x) :
    digitize edges x = edges.length := by
  apply List.countP_eq_length.mpr
  intro e he
  simp only [decide_eq_true_eq]
  exact le_trans (le_getLast_of_sorted edges hs eL hL e he) hx

theorem digitize_head_eq_one (edges : List ℚ) (hs : List.Sorted (· < ·) edges)
    (e0 : ℚ) (h0 : edges.head? = some e0) : digitize edges e0 = 1 := by
  cases edges with
  | nil => simp at h0
  | cons a l =>
    simp only [List.head?_cons, Option.some.injEq] at h0
    subst h0
    unfold digitize
    rw [List.countP_cons]
    have hl : l.countP (fun e => decide (e ≤ a)) = 0 := by
      apply List.countP_eq_zero.mpr
      intro e he
      simp only [decide_eq_true_eq, not_le]
      exact (List.sorted_cons.mp hs).1 e he
    simp [hl]

theorem postprocess_eq (w : FVal) :
    postprocess w = match w with
      | .nan => .fin 1
      | .ninf => .fin 0
      | .pinf => .pinf
      | .fin q => if q < 0 then .fin 0 else .fin q := by
  cases w <;> simp [postprocess, FVal.isnan, FVal.ltZero]

theorem hybridHist_nonneg (cfg : HybridConfig) (events : List Event)
    (idx : Nat × Nat × Nat) (h : ∀ ev ∈ events, 0 ≤ ev.weight) :
    0 ≤ hybridHist cfg events idx := by
  apply List.sum_nonneg
  intro a ha
  rcases List.mem_map.mp ha with ⟨ev, hev, rfl⟩
  exact h ev (List.mem_of_mem_filter hev)

theorem postprocess_not_nan_not_neg (w : FVal) :
    (postprocess w).isnan = false ∧ (postprocess w).ltZero = false := by
  rw [postprocess_eq]
  cases w with
  | fin q =>
    by_cases h : q < 0
    · simp [h, FVal.isnan, FVal.ltZero]
    · simp [h, FVal.isnan, FVal.ltZero]
  | pinf => simp [FVal.isnan, FVal.ltZero]
  | ninf => simp [FVal.isnan, FVal.ltZero]
  | nan => simp [FVal.isnan, FVal.ltZero]

theorem postprocess_fdiv_mem_unit (hI hE : ℚ) (hI0 : 0 ≤ hI) (hE0 : 0 ≤ hE) :
    ∃ q : ℚ, postprocess (fdiv (hI - hE) hI) = .fin q ∧ 0 ≤ q ∧ q ≤ 1 := by
  rcases eq_or_lt_of_le hI0 with h0 | hpos
  · rcases eq_or_lt_of_le hE0 with e0 | epos
    · refine ⟨1, ?_, by norm_num, le_refl 1⟩
      rw [← h0, ← e0]
      norm_num [fdiv, postprocess_eq]
    · refine ⟨0, ?_, le_refl 0, by norm_num⟩
      rw [← h0]
      have h1 : hE ≠ 0 := ne_of_gt epos
      have h2 : ¬ hE < 0 := by linarith
      simp [fdiv, h1, h2, postprocess_eq]
  · have hne : hI ≠ 0 := ne_of_gt hpos
    have hfd : fdiv (hI - hE) hI = .fin ((hI - hE) / hI) := by simp [fdiv, hne]
    rw [hfd, postprocess_eq]
    by_cases hneg : (hI - hE) / hI < 0
    · exact ⟨0, by simp [hneg], le_refl 0, by norm_num⟩
    · refine ⟨(hI - hE) / hI, by simp [hneg], le_of_not_lt hneg, ?_⟩
      rw [div_le_one hpos]
      linarith

/-- C1: for arbitrary (possibly signed) per-event weights the claim fails
(see the counterexample); what holds is: every entry of the weight table is
non-NaN and non-negative, and when all per-event weights of both input
tables are non-negative every entry is a finite value in [0, 1]. -/
theorem generate_hybrid_weights_entry_bounds (cfg : HybridConfig)
    (inclusive exclusive : List Event) (idx : Nat × Nat × Nat) :
    (generate_hybrid_weights cfg inclusive exclusive idx).isnan = false
    ∧ (generate_hybrid_weights cfg inclusive exclusive idx).ltZero = false
    ∧ ((∀ ev ∈ inclusive, 0 ≤ ev.weight) → (∀ ev ∈ exclusive, 0 ≤ ev.weight) →
      ∃ q : ℚ, generate_hybrid_weights cfg inclusive exclusive idx = .fin q
        ∧ 0 ≤ q ∧ q ≤ 1) := by
  refine ⟨(postprocess_not_nan_not_neg _).1, (postprocess_not_nan_not_neg _).2, ?_⟩
  intro hin hex
  exact postprocess_fdiv_mem_unit _ _ (hybridHist_nonneg cfg inclusive idx hin)
    (hybridHist_nonneg cfg exclusive idx hex)

/-- C1 witness: with one inclusive and one exclusive event of weight 1 in
the first bin, the theorem yields a finite entry in [0, 1]. -/
theorem generate_hybrid_weights_entry_bounds_witness :
    ∃ q : ℚ, generate_hybrid_weights defaultConfig
      [{ El_B := 0.25, q2 := 1, mX := 1, weight := 1 }]
      [{ El_B := 0.25, q2 := 1, mX := 1, weight := 1 }] (0, 0, 0) = .fin q
      ∧ 0 ≤ q ∧ q ≤ 1 :=
  (generate_hybrid_weights_entry_bounds defaultConfig
    [{ El_B := 0.25, q2 := 1, mX := 1, weight := 1 }]
    [{ El_B := 0.25, q2 := 1, mX := 1, weight := 1 }] (0, 0, 0)).2.2
    (by intro ev hev; simp only [List.mem_singleton] at hev; subst hev; norm_num)
    (by intro ev hev; simp only [List.mem_singleton] at hev; subst hev; norm_num)

/-- C1 counterexample: with a signed per-event weight (inclusive event of
weight -1, exclusive event of weight 1 in the same bin) the weight table
entry is `(-1 - 1) / (-1) = 2`, which lies outside [0, 1]. -/
theorem generate_hybrid_weights_entry_two :
    generate_hybrid_weights smallConfig
      [{ El_B := 0.5, q2 := 0.5, mX := 0.5, weight := -1 }]
      [{ El_B := 0.5, q2 := 0.5, mX := 0.5, weight := 1 }] (0, 0, 0) = FVal.fin 2
    ∧ ¬ ((2:ℚ) ≤ 1) := by
  constructor
  · norm_num [generate_hybrid_weights, hybridHist, histogramddR, resolveEdges, eventBin,
      histBin, digitize, smallConfig, fdiv, postprocess, FVal.isnan, FVal.ltZero,
      List.countP_cons, List.countP_nil, List.filter_cons, List.filter_nil,
      List.getLast?_cons_cons, List.getLast?_singleton]
  · norm_num

theorem postprocess_of_ltZero (w : FVal) (h : w.ltZero = true) :
    postprocess w = FVal.fin 0 := by
  rw [postprocess_eq]
  cases w with
  | fin q =>
    simp only [FVal.ltZero, decide_eq_true_eq] at h
    simp [h]
  | ninf => rfl
  | pinf => simp [FVal.ltZero] at h
  | nan => simp [FVal.ltZero] at h

/-- C2 counterexample: a bin with zero inclusive content but nonzero
exclusive content: the raw ratio is `(0 - 1)/0 = -inf`, which is not NaN,
so the NaN rule does not fire; the negativity clamp then sets the entry to
0, not 1. -/
theorem generate_hybrid_weights_zero_incl_not_one :
    hybridHist smallConfig [] (0, 0, 0) = 0
    ∧ generate_hybrid_weights smallConfig []
        [{ El_B := 0.5, q2 := 0.5, mX := 0.5, weight := 1 }] (0, 0, 0) = FVal.fin 0
    ∧ FVal.fin 0 ≠ FVal.fin 1 := by
  refine ⟨rfl, ?_, by simp⟩
  norm_num [generate_hybrid_weights, hybridHist, histogramddR, resolveEdges, eventBin,
    histBin, digitize, smallConfig, fdiv, postprocess, FVal.isnan, FVal.ltZero,
    List.countP_cons, List.countP_nil, List.filter_cons, List.filter_nil,
    List.getLast?_cons_cons, List.getLast?_singleton]

/-- C2 corrected: a bin in which both the inclusive and the exclusive
histogram contents are zero (so the ratio is the NaN `0/0`) gets weight
exactly 1; with nonzero exclusive content in a zero inclusive bin the entry
is 0 instead (see the counterexample). -/
theorem generate_hybrid_weights_empty_bin_one (cfg : HybridConfig)
    (inclusive exclusive : List Event) (idx : Nat × Nat × Nat)
    (hI : hybridHist cfg inclusive idx = 0)
    (hE : hybridHist cfg exclusive idx = 0) :
    generate_hybrid_weights cfg inclusive exclusive idx = FVal.fin 1 := by
  unfold generate_hybrid_weights
  rw [hI, hE]
  norm_num [fdiv, postprocess_eq]

/-- C2 witness: the all-empty tables give the 0/0 bin, whose entry is 1. -/
theorem generate_hybrid_weights_empty_bin_one_witness :
    generate_hybrid_weights smallConfig [] [] (0, 0, 0) = FVal.fin 1 :=
  generate_hybrid_weights_empty_bin_one smallConfig [] [] (0, 0, 0) rfl rfl

/-- C5: every bin whose raw ratio `(H_incl - H_exc) / H_incl` is negative
(including the `-inf` produced by a zero inclusive bin with positive
exclusive content) gets final weight exactly 0. -/
theorem generate_hybrid_weights_clamp_neg (cfg : HybridConfig)
    (inclusive exclusive : List Event) (idx : Nat × Nat × Nat)
    (h : (fdiv (hybridHist cfg inclusive idx - hybridHist cfg exclusive idx)
      (hybridHist cfg inclusive idx)).ltZero = true) :
    generate_hybrid_weights cfg inclusive exclusive idx = FVal.fin 0 := by
  unfold generate_hybrid_weights
  exact postprocess_of_ltZero _ h

/-- C5 witness: one inclusive event of weight 1 and one exclusive event of
weight 2 in the same bin give raw ratio -1 < 0 and final weight 0. -/
theorem generate_hybrid_weights_clamp_neg_witness :
    generate_hybrid_weights smallConfig
      [{ El_B := 0.5, q2 := 0.5, mX := 0.5, weight := 1 }]
      [{ El_B := 0.5, q2 := 0.5, mX := 0.5, weight := 2 }] (0, 0, 0) = FVal.fin 0 :=
  generate_hybrid_weights_clamp_neg smallConfig
    [{ El_B := 0.5, q2 := 0.5, mX := 0.5, weight := 1 }]
    [{ El_B := 0.5, q2 := 0.5, mX := 0.5, weight := 2 }] (0, 0, 0)
    (by norm_num [hybridHist, histogramddR, resolveEdges, eventBin,
      histBin, digitize, smallConfig, fdiv, FVal.ltZero,
      List.countP_cons, List.countP_nil, List.filter_cons, List.filter_nil,
      List.getLast?_cons_cons, List.getLast?_singleton])

/-- C6 counterexample: with both tables empty, the inclusive and exclusive
contents of bin (0,0,0) are equal (both 0), yet the entry is 1 (via the
NaN rule), not 0. -/
theorem generate_hybrid_weights_saturated_empty_one :
    hybridHist smallConfig ([] : List Event) (0, 0, 0) = 0
    ∧ generate_hybrid_weights smallConfig [] [] (0, 0, 0) = FVal.fin 1
    ∧ FVal.fin 1 ≠ FVal.fin 0 := by
  refine ⟨rfl, ?_, by simp⟩
  norm_num [generate_hybrid_weights, hybridHist, histogramddR, resolveEdges,
    smallConfig, fdiv, postprocess_eq, List.filter_nil]

/-- C6 corrected: a bin with equal and NONZERO inclusive and exclusive
contents gets weight 0; when both contents are zero the 0/0 bin gets
weight 1 instead (see the counterexample). -/
theorem generate_hybrid_weights_saturated_zero (cfg : HybridConfig)
    (inclusive exclusive : List Event) (idx : Nat × Nat × Nat)
    (heq : hybridHist cfg inclusive idx = hybridHist cfg exclusive idx)
    (hne : hybridHist cfg inclusive idx ≠ 0) :
    generate_hybrid_weights cfg inclusive exclusive idx = FVal.fin 0 := by
  unfold generate_hybrid_weights
  rw [← heq, sub_self]
  norm_num [fdiv, hne, postprocess_eq]

/-- C6 witness: identical singleton tables give an equal nonzero bin and
weight 0 there. -/
theorem generate_hybrid_weights_saturated_zero_witness :
    generate_hybrid_weights smallConfig
      [{ El_B := 0.5, q2 := 0.5, mX := 0.5, weight := 1 }]
      [{ El_B := 0.5, q2 := 0.5, mX := 0.5, weight := 1 }] (0, 0, 0) = FVal.fin 0 :=
  generate_hybrid_weights_saturated_zero smallConfig
    [{ El_B := 0.5, q2 := 0.5, mX := 0.5, weight := 1 }]
    [{ El_B := 0.5, q2 := 0.5, mX := 0.5, weight := 1 }] (0, 0, 0) rfl
    (by norm_num [hybridHist, histogramddR, resolveEdges, eventBin,
      histBin, digitize, smallConfig,
      List.countP_cons, List.countP_nil, List.filter_cons, List.filter_nil,
      List.getLast?_cons_cons, List.getLast?_singleton])

theorem calcOne_bounds (cfg : HybridConfig) (x : ℚ × ℚ × ℚ) :
    digitize cfg.bins_El_B x.1 ≤ cfg.bins_El_B.length - 1 + 1
    ∧ digitize cfg.bins_q2 x.2.1 ≤ cfg.bins_q2.length - 1 + 1
    ∧ digitize cfg.bins_mX x.2.2 ≤ cfg.bins_mX.length - 1 + 1 := by
  have h1 := digitize_le_length cfg.bins_El_B x.1
  have h2 := digitize_le_length cfg.bins_q2 x.2.1
  have h3 := digitize_le_length cfg.bins_mX x.2.2
  omega

theorem calcOne_ne_none (cfg : HybridConfig) (t : Nat → Nat → Nat → FVal)
    (x : ℚ × ℚ × ℚ) :
    calcOne cfg cfg.shape.1 cfg.shape.2.1 cfg.shape.2.2 t x ≠ none := by
  unfold calcOne HybridConfig.shape
  rw [if_pos (calcOne_bounds cfg x)]
  exact Option.some_ne_none _

theorem calcOne_out_of_range (cfg : HybridConfig)
    (hEl : List.Sorted (· < ·) cfg.bins_El_B)
    (hQ2 : List.Sorted (· < ·) cfg.bins_q2)
    (hMX : List.Sorted (· < ·) cfg.bins_mX)
    (t : Nat → Nat → Nat → FVal) (x : ℚ × ℚ × ℚ) (hx : outOfRange cfg x) :
    calcOne cfg cfg.shape.1 cfg.shape.2.1 cfg.shape.2.2 t x = some (FVal.fin 0) := by
  have hinner : ¬ (1 ≤ digitize cfg.bins_El_B x.1
      ∧ digitize cfg.bins_El_B x.1 ≤ cfg.bins_El_B.length - 1
      ∧ 1 ≤ digitize cfg.bins_q2 x.2.1
      ∧ digitize cfg.bins_q2 x.2.1 ≤ cfg.bins_q2.length - 1
      ∧ 1 ≤ digitize cfg.bins_mX x.2.2
      ∧ digitize cfg.bins_mX x.2.2 ≤ cfg.bins_mX.length - 1) := by
    rcases hx with h | h | h
    · rcases h with ⟨e0, h0, hlt⟩ | ⟨eL, hL, hge⟩
      · have hz := digitize_eq_zero _ hEl e0 h0 _ hlt
        omega
      · have hl := digitize_eq_length _ hEl eL hL _ hge
        have hpos : 0 < cfg.bins_El_B.length :=
          List.length_pos.mpr (List.ne_nil_of_mem (List.mem_of_mem_getLast? hL))
        omega
    · rcases h with ⟨e0, h0, hlt⟩ | ⟨eL, hL, hge⟩
      · have hz := digitize_eq_zero _ hQ2 e0 h0 _ hlt
        omega
      · have hl := digitize_eq_length _ hQ2 eL hL _ hge
        have hpos : 0 < cfg.bins_q2.length :=
          List.length_pos.mpr (List.ne_nil_of_mem (List.mem_of_mem_getLast? hL))
        omega
    · rcases h with ⟨e0, h0, hlt⟩ | ⟨eL, hL, hge⟩
      · have hz := digitize_eq_zero _ hMX e0 h0 _ hlt
        omega
      · have hl := digitize_eq_length _ hMX eL hL _ hge
        have hpos : 0 < cfg.bins_mX.length :=
          List.length_pos.mpr (List.ne_nil_of_mem (List.mem_of_mem_getLast? hL))
        omega
  unfold calcOne HybridConfig.shape
  rw [if_pos (calcOne_bounds cfg x), if_neg hinner]

/-- C3: with strictly increasing edges (as any valid configuration has),
the lookup never produces an index error — every output of
`calculate_weight` on a table of the matching shape is defined — and every
event with a coordinate below the first edge or at/above the last edge of
any dimension receives weight exactly 0, through the zero-valued padding
slice added on every side of every axis. -/
theorem calculate_weight_safe (cfg : HybridConfig)
    (hEl : List.Sorted (· < ·) cfg.bins_El_B)
    (hQ2 : List.Sorted (· < ·) cfg.bins_q2)
    (hMX : List.Sorted (· < ·) cfg.bins_mX)
    (t : Nat → Nat → Nat → FVal) (xs : List (ℚ × ℚ × ℚ)) :
    (∀ w ∈ calculate_weight cfg t xs, w ≠ none)
    ∧ (∀ x ∈ xs, outOfRange cfg x →
        calcOne cfg cfg.shape.1 cfg.shape.2.1 cfg.shape.2.2 t x = some (FVal.fin 0)) := by
  constructor
  · intro w hw
    rcases List.mem_map.mp hw with ⟨x, _, rfl⟩
    exact calcOne_ne_none cfg t x
  · intro x _ hout
    exact calcOne_out_of_range cfg hEl hQ2 hMX t x hout

/-- C3 witness: an event below the first `El_B` edge gets weight 0. -/
theorem calculate_weight_safe_witness :
    calcOne smallConfig smallConfig.shape.1 smallConfig.shape.2.1 smallConfig.shape.2.2
      (fun _ _ _ => FVal.fin 5) (-1, 1/2, 1/2) = some (FVal.fin 0) :=
  (calculate_weight_safe smallConfig
    (by norm_num [smallConfig, List.sorted_cons])
    (by norm_num [smallConfig, List.sorted_cons])
    (by norm_num [smallConfig, List.sorted_cons])
    (fun _ _ _ => FVal.fin 5) [(-1, 1/2, 1/2)]).2 (-1, 1/2, 1/2) (by simp)
    (Or.inl (Or.inl ⟨0, rfl, by norm_num⟩))

/-- C4: per-dimension bin assignment at the boundaries.  An event
coordinate exactly equal to the first edge digitizes to 1 — the first real
bin of the padded table (index 0 is the underflow padding slice) — and,
when the other two coordinates fall in real bins, the lookup reads the
first `El_B` row of the table; a coordinate at or beyond the last edge
digitizes to the number of edges, the overflow padding slice, and the
lookup returns 0. -/
theorem calc_weight_boundary (cfg : HybridConfig)
    (t : Nat → Nat → Nat → FVal) (x : ℚ × ℚ × ℚ)
    (hEl : List.Sorted (· < ·) cfg.bins_El_B)
    (e0 : ℚ) (h0 : cfg.bins_El_B.head? = some e0) :
    (x.1 = e0 → digitize cfg.bins_El_B x.1 = 1)
    ∧ (∀ eL, cfg.bins_El_B.getLast? = some eL → eL ≤ x.1 →
        digitize cfg.bins_El_B x.1 = cfg.bins_El_B.length
        ∧ calcOne cfg cfg.shape.1 cfg.shape.2.1 cfg.shape.2.2 t x = some (FVal.fin 0))
    ∧ (x.1 = e0 → 1 ≤ cfg.shape.1 →
        1 ≤ digitize cfg.bins_q2 x.2.1 → digitize cfg.bins_q2 x.2.1 ≤ cfg.shape.2.1 →
        1 ≤ digitize cfg.bins_mX x.2.2 → digitize cfg.bins_mX x.2.2 ≤ cfg.shape.2.2 →
        calcOne cfg cfg.shape.1 cfg.shape.2.1 cfg.shape.2.2 t x
          = some (t 0 (digitize cfg.bins_q2 x.2.1 - 1) (digitize cfg.bins_mX x.2.2 - 1))) := by
  have hfirst : x.1 = e0 → digitize cfg.bins_El_B x.1 = 1 := by
    intro hx
    rw [hx]
    exact digitize_head_eq_one _ hEl e0 h0
  refine ⟨hfirst, ?_, ?_⟩
  · intro eL hL hge
    have hlen := digitize_eq_length _ hEl eL hL _ hge
    have hpos : 0 < cfg.bins_El_B.length :=
      List.length_pos.mpr (List.ne_nil_of_mem (List.mem_of_mem_getLast? hL))
    refine ⟨hlen, ?_⟩
    unfold calcOne HybridConfig.shape
    rw [if_pos (calcOne_bounds cfg x), if_neg (by omega)]
  · intro hx hn1 hj1 hj2 hk1 hk2
    have h1 := hfirst hx
    unfold calcOne HybridConfig.shape
    unfold HybridConfig.shape at hn1 hj2 hk2
    rw [if_pos (calcOne_bounds cfg x), if_pos ⟨by omega, by omega, hj1, hj2, hk1, hk2⟩, h1]

/-- C4 witness: in the small configuration, the event (0, 1/2, 1/2) sits
exactly on the first `El_B` edge and is read from the first table row. -/
theorem calc_weight_boundary_witness :
    calcOne smallConfig smallConfig.shape.1 smallConfig.shape.2.1 smallConfig.shape.2.2
      (fun _ _ _ => FVal.fin 5) (0, 1/2, 1/2) = some (FVal.fin 5) :=
  (calc_weight_boundary smallConfig (fun _ _ _ => FVal.fin 5) (0, 1/2, 1/2)
    (by norm_num [smallConfig, List.sorted_cons]) 0 rfl).2.2 rfl
    (by norm_num [smallConfig, HybridConfig.shape])
    (by norm_num [digitize, smallConfig, List.countP_cons, List.countP_nil])
    (by norm_num [digitize, smallConfig, HybridConfig.shape, List.countP_cons, List.countP_nil])
    (by norm_num [digitize, smallConfig, List.countP_cons, List.countP_nil])
    (by norm_num [digitize, smallConfig, HybridConfig.shape, List.countP_cons, List.countP_nil])

/-- C9: the lookup maps its input rows elementwise: the output has one
entry per input row, the i-th output is a function of row i and the table
alone, and two inputs agreeing on row i produce the same i-th output. -/
theorem calculate_weight_rowwise (cfg : HybridConfig) (t : Nat → Nat → Nat → FVal)
    (xs ys : List (ℚ × ℚ × ℚ)) :
    (calculate_weight cfg t xs).length = xs.length
    ∧ (∀ (i : Nat) (hx : i < xs.length),
        (calculate_weight cfg t xs)[i]?
          = some (calcOne cfg cfg.shape.1 cfg.shape.2.1 cfg.shape.2.2 t (xs.get ⟨i, hx⟩)))
    ∧ (∀ (i : Nat) (hx : i < xs.length) (hy : i < ys.length),
        xs.get ⟨i, hx⟩ = ys.get ⟨i, hy⟩ →
        (calculate_weight cfg t xs)[i]? = (calculate_weight cfg t ys)[i]?) := by
  refine ⟨List.length_map _ _, ?_, ?_⟩
  · intro i hx
    simp [calculate_weight, List.getElem?_map, List.getElem?_eq_getElem hx,
      List.get_eq_getElem]
  · intro i hx hy hxy
    simp only [List.get_eq_getElem] at hxy
    simp [calculate_weight, List.getElem?_map, List.getElem?_eq_getElem hx,
      List.getElem?_eq_getElem hy, hxy]

/-- C9 witness: two input arrays agreeing on row 0 produce the same first
output weight. -/
theorem calculate_weight_rowwise_witness :
    (calculate_weight smallConfig (fun _ _ _ => FVal.fin 5) [(1/2, 1/2, 1/2)])[0]?
      = (calculate_weight smallConfig (fun _ _ _ => FVal.fin 5)
          [(1/2, 1/2, 1/2), (9, 9, 9)])[0]? :=
  (calculate_weight_rowwise smallConfig (fun _ _ _ => FVal.fin 5)
    [(1/2, 1/2, 1/2)] [(1/2, 1/2, 1/2), (9, 9, 9)]).2.2 0
    (by norm_num) (by norm_num) rfl

/-- C7 counterexample: an input table whose single event has every
coordinate 3/2 — strictly between the second edge (1) and the last edge
(2) of each dimension — produces EXACTLY the same histogram under
`range = (first edge, second edge)` as under the full `(min, max) = (0, 2)`
range (here at the bin (1,1,1) that contains the event, whose content is
the event's full weight 1): the claimed difference does not occur. -/
theorem histogramddR_range_no_difference :
    histogramddR (.explicitEdges smallConfig.bins_El_B)
      (.explicitEdges smallConfig.bins_q2) (.explicitEdges smallConfig.bins_mX)
      smallConfig.range_El_B smallConfig.range_q2 smallConfig.range_mX
      [{ El_B := 3/2, q2 := 3/2, mX := 3/2, weight := 1 }] (1, 1, 1)
    = histogramddR (.explicitEdges smallConfig.bins_El_B)
      (.explicitEdges smallConfig.bins_q2) (.explicitEdges smallConfig.bins_mX)
      (0, 2) (0, 2) (0, 2)
      [{ El_B := 3/2, q2 := 3/2, mX := 3/2, weight := 1 }] (1, 1, 1)
    ∧ histogramddR (.explicitEdges smallConfig.bins_El_B)
      (.explicitEdges smallConfig.bins_q2) (.explicitEdges smallConfig.bins_mX)
      smallConfig.range_El_B smallConfig.range_q2 smallConfig.range_mX
      [{ El_B := 3/2, q2 := 3/2, mX := 3/2, weight := 1 }] (1, 1, 1) = 1 := by
  constructor
  · rfl
  · norm_num [histogramddR, resolveEdges, eventBin, histBin, digitize, smallConfig,
      List.countP_cons, List.countP_nil, List.filter_cons, List.filter_nil,
      List.getLast?_cons_cons, List.getLast?_singleton]

/-- C7 corrected: `numpy.histogramdd` consults `range` only when a
dimension's `bins` entry is an integer count; `generate_hybrid_weights`
passes explicit edge sequences, so the `range = (first, second)` convention
is dead code — any two range arguments give identical histograms and it
cannot affect the first bin's upper range check or any output. -/
theorem histogramddR_range_ignored (eEl eQ2 eMX : List ℚ)
    (rEl rQ2 rMX sEl sQ2 sMX : ℚ × ℚ) (events : List Event) (idx : Nat × Nat × Nat) :
    histogramddR (.explicitEdges eEl) (.explicitEdges eQ2) (.explicitEdges eMX)
      rEl rQ2 rMX events idx
    = histogramddR (.explicitEdges eEl) (.explicitEdges eQ2) (.explicitEdges eMX)
      sEl sQ2 sMX events idx :=
  rfl

/-- C8 counterexample: `Hybrid.__init__` performs no validation of the edge
sequences: a configuration whose three edge lists are strictly DECREASING
is accepted without any error, and no ConfigurationError exists in the
code. -/
theorem hybridInit_accepts_unsorted :
    hybridInit (fun k => if k = "BINS_MX" ∨ k = "BINS_ELB" ∨ k = "BINS_Q2"
        then some [3, 2, 1] else none)
      = .ok { bins_mX := [3, 2, 1], bins_El_B := [3, 2, 1], bins_q2 := [3, 2, 1] }
    ∧ ¬ List.Sorted (· < ·) ([3, 2, 1] : List ℚ) := by
  constructor
  · rfl
  · norm_num [List.sorted_cons]

/-- C8 corrected: loading fails with a `KeyError` naming the first absent
key in the lookup order BINS_MX, BINS_ELB, BINS_Q2, and with an
`IndexError` (from the eager `range_* = (bins[0], bins[1])` derivation)
when all keys are present but some edge list has fewer than two elements —
neither is a ConfigurationError; when all keys are present and every list
has at least two elements, loading succeeds and stores exactly the
supplied lists, with no check that they are strictly increasing. -/
theorem hybridInit_spec (config : String → Option (List ℚ)) :
    (∀ mx elb q2, config "BINS_MX" = some mx → config "BINS_ELB" = some elb →
      config "BINS_Q2" = some q2 →
      2 ≤ mx.length → 2 ≤ elb.length → 2 ≤ q2.length →
      hybridInit config = .ok { bins_mX := mx, bins_El_B := elb, bins_q2 := q2 })
    ∧ (config "BINS_MX" = none → hybridInit config = .error (.keyError "BINS_MX"))
    ∧ (∀ mx, config "BINS_MX" = some mx → config "BINS_ELB" = none →
        hybridInit config = .error (.keyError "BINS_ELB"))
    ∧ (∀ mx elb, config "BINS_MX" = some mx → config "BINS_ELB" = some elb →
        config "BINS_Q2" = none →
        hybridInit config = .error (.keyError "BINS_Q2"))
    ∧ (∀ mx elb q2, config "BINS_MX" = some mx → config "BINS_ELB" = some elb →
        config "BINS_Q2" = some q2 →
        (mx.length < 2 ∨ elb.length < 2 ∨ q2.length < 2) →
        hybridInit config = .error .indexError) := by
  refine ⟨?_, ?_, ?_, ?_, ?_⟩
  · intro mx elb q2 h1 h2 h3 l1 l2 l3
    have n1 : ¬ mx.length < 2 := by omega
    have n2 : ¬ elb.length < 2 := by omega
    have n3 : ¬ q2.length < 2 := by omega
    simp [hybridInit, h1, h2, h3, n1, n2, n3]
  · intro h
    simp [hybridInit, h]
  · intro mx h1 h2
    simp [hybridInit, h1, h2]
  · intro mx elb h1 h2 h3
    simp [hybridInit, h1, h2, h3]
  · intro mx elb q2 h1 h2 h3 hlt
    rcases hlt with h | h | h <;> simp [hybridInit, h1, h2, h3, h]

/-- C8 witness: a config with all three keys present and two edges per
list loads successfully and stores the supplied lists verbatim. -/
theorem hybridInit_spec_witness :
    hybridInit (fun k => if k = "BINS_MX" then some [0, 1] else
        if k = "BINS_ELB" then some [0, 2] else
        if k = "BINS_Q2" then some [0, 3] else none)
      = .ok { bins_mX := [0, 1], bins_El_B := [0, 2], bins_q2 := [0, 3] } :=
  (hybridInit_spec _).1 [0, 1] [0, 2] [0, 3] rfl rfl rfl
    (by norm_num) (by norm_num) (by norm_num)

theorem histBin_getLast (edges : List ℚ) (hs : List.Sorted (· < ·) edges)
    (h2 : 2 ≤ edges.length) (eL : ℚ) (hL : edges.getLast? = some eL) :
    histBin edges eL = some (edges.length - 2) := by
  unfold histBin
  rw [if_neg (by omega)]
  cases edges with
  | nil => simp at h2
  | cons a l =>
    have ha : a ≤ eL :=
      le_getLast_of_sorted _ hs eL hL a (List.mem_cons_self a l)
    rw [hL]
    simp only [List.head?_cons]
    rw [if_neg ?_, if_pos trivial]
    rintro (h | h)
    · exact absurd h (not_lt.mpr ha)
    · exact lt_irrefl _ h

/-- C10: an event whose `El_B` coordinate equals the last `El_B` edge (its
other coordinates falling in real bins) is counted in the LAST `El_B` bin
by the histograms `generate_hybrid_weights` builds — the final bin is
closed on both ends — while `calculate_weight` digitizes the same
coordinate to the overflow padding slice and returns weight 0: builder and
lookup disagree at the last edge. -/
theorem builder_lookup_last_edge_mismatch (cfg : HybridConfig)
    (t : Nat → Nat → Nat → FVal)
    (hEl : List.Sorted (· < ·) cfg.bins_El_B) (h2 : 2 ≤ cfg.bins_El_B.length)
    (eL : ℚ) (hL : cfg.bins_El_B.getLast? = some eL)
    (x2 x3 w : ℚ) (j k : Nat)
    (hj : histBin cfg.bins_q2 x2 = some j) (hk : histBin cfg.bins_mX x3 = some k) :
    histBin cfg.bins_El_B eL = some (cfg.bins_El_B.length - 2)
    ∧ hybridHist cfg [{ El_B := eL, q2 := x2, mX := x3, weight := w }]
        (cfg.bins_El_B.length - 2, j, k) = w
    ∧ calcOne cfg cfg.shape.1 cfg.shape.2.1 cfg.shape.2.2 t (eL, x2, x3)
        = some (FVal.fin 0) := by
  have hlast := histBin_getLast cfg.bins_El_B hEl h2 eL hL
  have hbin : eventBin cfg.bins_El_B cfg.bins_q2 cfg.bins_mX
      { El_B := eL, q2 := x2, mX := x3, weight := w }
      = some (cfg.bins_El_B.length - 2, j, k) := by
    simp [eventBin, hlast, hj, hk]
  refine ⟨hlast, ?_, ?_⟩
  · unfold hybridHist histogramddR resolveEdges
    simp [hbin]
  · have hdig := digitize_eq_length cfg.bins_El_B hEl eL hL eL le_rfl
    unfold calcOne HybridConfig.shape
    rw [if_pos (calcOne_bounds cfg (eL, x2, x3)), if_neg ?_]
    simp only []
    omega

/-- C10 witness: in the small configuration the event (2, 1/2, 1/2) — with
2 the last `El_B` edge — is counted with its full weight 5 in histogram bin
(1, 0, 0), the last `El_B` bin, while the lookup returns 0 for it. -/
theorem builder_lookup_last_edge_mismatch_witness :
    histBin smallConfig.bins_El_B 2 = some 1
    ∧ hybridHist smallConfig [{ El_B := 2, q2 := 1/2, mX := 1/2, weight := 5 }]
        (1, 0, 0) = 5
    ∧ calcOne smallConfig smallConfig.shape.1 smallConfig.shape.2.1 smallConfig.shape.2.2
        (fun _ _ _ => FVal.fin 7) (2, 1/2, 1/2) = some (FVal.fin 0) :=
  builder_lookup_last_edge_mismatch smallConfig (fun _ _ _ => FVal.fin 7)
    (by norm_num [smallConfig, List.sorted_cons]) (by norm_num [smallConfig])
    2 rfl (1/2) (1/2) 5 0 0
    (by norm_num [histBin, digitize, smallConfig, List.countP_cons, List.countP_nil,
      List.getLast?_cons_cons, List.getLast?_singleton])
    (by norm_num [histBin, digitize, smallConfig, List.countP_cons, List.countP_nil,
      List.getLast?_cons_cons, List.getLast?_singleton])
